import Mathlib

/-!
A shallow embedding of the `wgtools` Python module (`wgtools.py`): a WireGuard
CLI wrapper whose core is a line-based parser for the text emitted by
`wg show`.  Python strings are Lean `String`s, but all string operations are
re-implemented over `List Char` with structural recursion so that every
definition evaluates inside the kernel.  Python `dict`s are association lists
that update in place and append new keys at the end, exactly like insertion
ordered Python dictionaries.  Exceptions are modelled with `Except PErr`;
the constructors of `PErr` name the Python exception classes that the code
can raise.  External processes (`check_output` / `check_call`) are modelled
by an oracle `env : Cmd -> String` giving the standard output of a successful
invocation, and every function that spawns processes also returns the list of
command lines it issued, in order.
-/

namespace Wgtools

/-! ## Python string primitives -/

/-- Python `str` whitespace for `strip` and `split()`: space, tab, newline,
carriage return, vertical tab, form feed (the ASCII part of Python's set). -/
def pyIsSpace (c : Char) : Bool :=
  c == ' ' || c == '\t' || c == '\n' || c == '\r' || c == '\x0b' || c == '\x0c'

/-- Drop trailing characters satisfying `p`. -/
def dropTrailing (p : Char → Bool) (cs : List Char) : List Char :=
  (cs.reverse.dropWhile p).reverse

/-- Python `str.strip()` with no argument (on char lists). -/
def trimChars (cs : List Char) : List Char :=
  dropTrailing pyIsSpace (cs.dropWhile pyIsSpace)

/-- Python `str.strip()` with no argument. -/
def pyTrim (s : String) : String := ⟨trimChars s.data⟩

/-- Split a char list at the first occurrence of the (nonempty) separator:
returns the part before it and the part after it, or `none` when the
separator does not occur. -/
def splitFirst (sep : List Char) : List Char → Option (List Char × List Char)
  | [] => none
  | c :: cs =>
    if sep.isPrefixOf (c :: cs) then some ([], (c :: cs).drop sep.length)
    else
      match splitFirst sep cs with
      | none => none
      | some (pre, post) => some (c :: pre, post)

/-- Fuelled worker for splitting on every occurrence of a separator.  The
fuel is an upper bound on the number of cuts; callers pass the length of the
input plus one, which always suffices for a nonempty separator. -/
def pySplitAux (sep : List Char) : Nat → List Char → List (List Char)
  | 0, cs => [cs]
  | fuel + 1, cs =>
    match splitFirst sep cs with
    | none => [cs]
    | some (pre, post) => pre :: pySplitAux sep fuel post

/-- Python `s.split(sep)` for a nonempty separator `sep`: cut at every
non-overlapping occurrence, keeping empty parts.  A string with `k`
occurrences of the separator splits into `k + 1` parts. -/
def pySplitOn (s sep : String) : List String :=
  if sep.data.isEmpty then [s]
  else (pySplitAux sep.data (s.data.length + 1) s.data).map (fun cs => ⟨cs⟩)

/-- Python `s.replace(old, new)` for a nonempty `old`: replace every
non-overlapping occurrence, scanning left to right. -/
def pyReplace (s old new : String) : String :=
  String.intercalate new (pySplitOn s old)

/-- Worker for Python `str.split()` with no argument; the second argument
accumulates the current word in reverse. -/
def pyWordsAux : List Char → List Char → List String
  | [], cur => if cur.isEmpty then [] else [⟨cur.reverse⟩]
  | c :: cs, cur =>
    if pyIsSpace c then
      if cur.isEmpty then pyWordsAux cs [] else (⟨cur.reverse⟩ : String) :: pyWordsAux cs []
    else pyWordsAux cs (c :: cur)

/-- Python `s.split()` with no argument: maximal runs of non-whitespace. -/
def pySplitWhitespace (s : String) : List String := pyWordsAux s.data []

/-- Numeric value of a list of ASCII digits, most significant first. -/
def digitsToNat (cs : List Char) : Nat :=
  cs.foldl (fun a c => a * 10 + (c.toNat - 48)) 0

/-! ## Errors and values -/

/-- The Python exception classes the embedded code can raise. -/
inductive PErr where
  | valueError
  | keyError
  | typeError
  | attributeError
  | recursionError
deriving DecidableEq, Repr

/-- Python `int(s)`: optional surrounding whitespace, an optional sign, then
a nonempty run of ASCII digits.  (Underscore digit grouping and non-ASCII
digits, which CPython also accepts, are not modelled; the tool only emits
plain decimal ports.) -/
def pyInt (s : String) : Except PErr Int :=
  let t := trimChars s.data
  let signed : Int × List Char :=
    match t with
    | '+' :: r => (1, r)
    | '-' :: r => (-1, r)
    | r => (1, r)
  if !signed.2.isEmpty && signed.2.all Char.isDigit then
    .ok (signed.1 * (digitsToNat signed.2 : Int))
  else .error .valueError

/-- An IPv4 network object (`ipaddress.IPv4Network`): base address as a
32-bit number plus a prefix length. -/
structure IPv4Net where
  address : Nat
  prefixLen : Nat
deriving DecidableEq, Repr

/-- An IPv6 network object (`ipaddress.IPv6Network`): base address as a
128-bit number plus a prefix length. -/
structure IPv6Net where
  address : Nat
  prefixLen : Nat
deriving DecidableEq, Repr

/-- An element of a parsed `allowed ips` list (the source's `IPNetworks`
iterator element type, `str | IPv4Network | IPv6Network`): a network object
of either family when JSON mode is off, the trimmed string when it is on. -/
inductive NetStr where
  | net : IPv4Net → NetStr
  | net6 : IPv6Net → NetStr
  | str : String → NetStr
deriving DecidableEq, Repr

/-- What `ipaddress.ip_network` returns: an IPv4 or an IPv6 network. -/
inductive IPNet where
  | v4 : IPv4Net → IPNet
  | v6 : IPv6Net → IPNet
deriving DecidableEq, Repr

/-- Embed a parsed network into the `allowed ips` element type. -/
def NetStr.ofNet : IPNet → NetStr
  | .v4 n => .net n
  | .v6 n => .net6 n

/-- A value produced by `parse_value` or supplied in a caller's settings
dict: a string, an int, a bool, Python `None`, a list of networks/strings
(`allowed ips`), or a string-valued dict (`transfer`). -/
inductive PVal where
  | vstr : String → PVal
  | vint : Int → PVal
  | vbool : Bool → PVal
  | vnone : PVal
  | vnets : List NetStr → PVal
  | vdict : List (String × String) → PVal
deriving DecidableEq, Repr

/-- A peer record (or a settings dict): a Python dict from string keys to
parsed values, in insertion order. -/
abbrev PRec := List (String × PVal)

/-- A value stored in an interface record: either an ordinary parsed value
or the nested peers dict (keyed by the parsed peer name, which is a string
or `None`). -/
inductive IVal where
  | pv : PVal → IVal
  | peers : List (PVal × PRec) → IVal
deriving DecidableEq, Repr

/-- An interface record: a Python dict from string keys to values. -/
abbrev IRec := List (String × IVal)

/-! ## Python dict operations (insertion-ordered association lists) -/

/-- Python `d[k]` as an `Option`: the value at the first (unique) matching
key. -/
def dget [DecidableEq κ] : List (κ × α) → κ → Option α
  | [], _ => none
  | (k, v) :: r, key => if k = key then some v else dget r key

/-- Python `d[k] = v`: update in place when the key exists (keeping its
position), otherwise append at the end. -/
def dset [DecidableEq κ] : List (κ × α) → κ → α → List (κ × α)
  | [], key, val => [(key, val)]
  | (k, v) :: r, key, val =>
    if k = key then (k, val) :: r else (k, v) :: dset r key val

/-- Apply `f` to the value stored at `key`, leaving the dict unchanged when
the key is absent. -/
def dmod [DecidableEq κ] (key : κ) (f : α → α) : List (κ × α) → List (κ × α)
  | [] => []
  | (k, v) :: r => if k = key then (k, f v) :: r else (k, v) :: dmod key f r

/-- Python `d.get(k)` on a settings dict: `None` when the key is absent. -/
def pyGet (d : PRec) (k : String) : PVal := (dget d k).getD .vnone

/-! ## `ipaddress.ip_network` (strict), IPv4 and IPv6 -/

/-- One dotted-quad octet: one to three ASCII digits, no leading zero unless
the octet is exactly `0`, value at most 255 (the checks CPython's
`ipaddress` performs). -/
def parseOctet (s : String) : Option Nat :=
  let cs := s.data
  if cs.isEmpty || cs.length > 3 then none
  else if !cs.all Char.isDigit then none
  else if cs.length > 1 && cs.headD '0' == '0' then none
  else
    let n := digitsToNat cs
    if n ≤ 255 then some n else none

/-- An IPv4 address: exactly four dot-separated octets. -/
def parseIPv4Addr (s : String) : Option Nat :=
  match (pySplitOn s ".").mapM parseOctet with
  | some [o1, o2, o3, o4] => some (((o1 * 256 + o2) * 256 + o3) * 256 + o4)
  | _ => none

/-- A numeric prefix length: a nonempty run of ASCII digits whose value is
at most `maxLen` (CPython accepts leading zeros here). -/
def parsePrefixLen (maxLen : Nat) (s : String) : Option Nat :=
  let cs := s.data
  if !cs.isEmpty && cs.all Char.isDigit then
    let n := digitsToNat cs
    if n ≤ maxLen then some n else none
  else none

/-- The prefix length whose netmask (ones followed by zeroes over `width`
bits) equals `ip`, when there is one. -/
def maskPrefix (width ip : Nat) : Option Nat :=
  (List.range (width + 1)).findSome?
    (fun p => if ip = 2 ^ width - 2 ^ (width - p) then some p else none)

/-- An IPv4 prefix part, as `IPv4Network._make_netmask` accepts it: a
numeric prefix length, a dotted netmask (contiguous ones then zeroes), or a
dotted hostmask (the complement of a netmask). -/
def pyV4Prefix (p : String) : Option Nat :=
  match parsePrefixLen 32 p with
  | some n => some n
  | none =>
    match parseIPv4Addr p with
    | none => none
    | some ip =>
      match maskPrefix 32 ip with
      | some n => some n
      | none => maskPrefix 32 (2 ^ 32 - 1 - ip)

/-- A hexadecimal digit value. -/
def hexVal (c : Char) : Nat :=
  if c.isDigit then c.toNat - 48
  else if 'a' ≤ c then c.toNat - 87
  else c.toNat - 55

/-- Is `c` an ASCII hexadecimal digit? -/
def isHexDigitB (c : Char) : Bool :=
  c.isDigit || ('a' ≤ c && c ≤ 'f') || ('A' ≤ c && c ≤ 'F')

/-- Numeric value of a list of hexadecimal digits, most significant
first. -/
def hexDigitsToNat (cs : List Char) : Nat :=
  cs.foldl (fun a c => a * 16 + hexVal c) 0

/-- One IPv6 hextet: one to four hexadecimal digits (leading zeros are
allowed, unlike IPv4 octets). -/
def parseHextet (s : String) : Option Nat :=
  let cs := s.data
  if cs.isEmpty || cs.length > 4 then none
  else if !cs.all isHexDigitB then none
  else some (hexDigitsToNat cs)

/-- One lowercase hexadecimal digit character. -/
def hexDigitChar (n : Nat) : Char :=
  if n < 10 then Char.ofNat (48 + n) else Char.ofNat (87 + n)

/-- Worker for rendering in lowercase hexadecimal; the fuel bounds the
number of digits. -/
def hexStrAux : Nat → Nat → List Char
  | 0, _ => []
  | _ + 1, 0 => []
  | fuel + 1, n => hexStrAux fuel (n / 16) ++ [hexDigitChar (n % 16)]

/-- Lowercase hexadecimal rendering without leading zeros, as CPython's
percent-x formatting produces for a hextet. -/
def hexStr (n : Nat) : String :=
  if n == 0 then "0" else ⟨hexStrAux 32 n⟩

/-- The value of a list of 16-bit hextets, most significant first. -/
def hextetsVal (hs : List Nat) : Nat :=
  hs.foldl (fun a h => a * 65536 + h) 0

/-- The indices of empty parts strictly between the first and the last
part: the candidate positions of a `::` compression. -/
def interiorEmpties (parts : List String) : List Nat :=
  (List.range parts.length).filter (fun i =>
    decide (0 < i) && decide (i + 1 < parts.length) && (parts.getD i "x" == ""))

/-- An IPv6 address, following CPython's `_ip_int_from_string`: split on
colons (at least three parts); a final part containing a dot is parsed as
an embedded IPv4 address and replaced by its two hextets; at most nine
parts; at most one `::` (an empty interior part); a leading or trailing
lone colon is only allowed as part of a `::`; without `::` exactly eight
parts, with `::` at least one hextet elided; each remaining part is a
hextet of one to four hexadecimal digits. -/
def pyIPv6Addr (s : String) : Option Nat :=
  let parts0 := pySplitOn s ":"
  if parts0.length < 3 then none
  else
    let expanded : Option (List String) :=
      if (parts0.getLastD "").data.contains '.' then
        match parseIPv4Addr (parts0.getLastD "") with
        | some ip4 =>
          some (parts0.dropLast ++ [hexStr (ip4 / 65536), hexStr (ip4 % 65536)])
        | none => none
      else some parts0
    match expanded with
    | none => none
    | some parts =>
      if parts.length > 9 then none
      else
        match interiorEmpties parts with
        | [] =>
          if (parts.length == 8) && !(parts.headD "x" == "") &&
              !(parts.getLastD "x" == "") then
            (parts.mapM parseHextet).map hextetsVal
          else none
        | [skip] =>
          let hi0 := skip
          let lo0 := parts.length - skip - 1
          let headEmpty := parts.headD "x" == ""
          let lastEmpty := parts.getLastD "x" == ""
          if headEmpty && !(hi0 == 1) then none
          else if lastEmpty && !(lo0 == 1) then none
          else
            let hi := if headEmpty then 0 else hi0
            let lo := if lastEmpty then 0 else lo0
            if hi + lo > 7 then none
            else
              match (parts.take hi).mapM parseHextet,
                  (parts.drop (parts.length - lo)).mapM parseHextet with
              | some his, some los =>
                some (hextetsVal his * 2 ^ (16 * (8 - hi)) + hextetsVal los)
              | _, _ => none
        | _ => none

/-- A string of the IPv4 network form `address[/prefix]`, before the strict
host-bits check: the prefix may be numeric, a netmask or a hostmask, and
defaults to 32. -/
def pyIpNetworkV4Format (s : String) : Option (Nat × Nat) :=
  match pySplitOn s "/" with
  | [a] => (parseIPv4Addr a).map (·, 32)
  | [a, p] =>
    match parseIPv4Addr a, pyV4Prefix p with
    | some ip, some n => some (ip, n)
    | _, _ => none
  | _ => none

/-- Strip an RFC 4007 scope id, as `IPv6Address._split_scope_id` does:
everything after the first percent sign is the scope, which must then be
nonempty and contain no further percent sign; the address part is what
precedes it. -/
def splitScopeId (s : String) : Option String :=
  match splitFirst ['%'] s.data with
  | none => some s
  | some (addr, scope) =>
    if scope.isEmpty || scope.contains '%' then none else some ⟨addr⟩

/-- A string of the IPv6 network form `address[/prefix]` (the address may
carry a scope id), before the strict host-bits check: the prefix is
numeric only and defaults to 128. -/
def pyIpNetworkV6Format (s : String) : Option (Nat × Nat) :=
  match pySplitOn s "/" with
  | [a] =>
    match splitScopeId a with
    | some a' => (pyIPv6Addr a').map (·, 128)
    | none => none
  | [a, p] =>
    match splitScopeId a with
    | some a' =>
      match pyIPv6Addr a', parsePrefixLen 128 p with
      | some ip, some n => some (ip, n)
      | _, _ => none
    | none => none
  | _ => none

/-- `ipaddress.ip_network(s)` (strict, as `_parse_ip_networks` calls it):
try the IPv4 form first, then the IPv6 form, raising `ValueError` when
neither matches.  A network whose address has bits set below the prefix
fails the strict check of the family whose format matched — that
`ValueError` is not caught by `ip_network`, so a v4-form string with host
bits set does not fall through to the v6 attempt. -/
def pyIpNetwork (s : String) : Except PErr IPNet :=
  match pyIpNetworkV4Format s with
  | some (addr, n) =>
    if addr % 2 ^ (32 - n) == 0 then .ok (.v4 ⟨addr, n⟩) else .error .valueError
  | none =>
    match pyIpNetworkV6Format s with
    | some (addr, n) =>
      if addr % 2 ^ (128 - n) == 0 then .ok (.v6 ⟨addr, n⟩)
      else .error .valueError
    | none => .error .valueError

/-- Render one octet of an address. -/
def octetString (addr : Nat) (shift : Nat) : String :=
  toString (addr / 2 ^ shift % 256)

/-- `str()` of an IPv4 network object: `a.b.c.d/p`. -/
def ipv4NetString (n : IPv4Net) : String :=
  octetString n.address 24 ++ "." ++ octetString n.address 16 ++ "." ++
    octetString n.address 8 ++ "." ++ octetString n.address 0 ++ "/" ++
    toString n.prefixLen

/-- The eight hextets of an IPv6 address, most significant first. -/
def v6Hextets (addr : Nat) : List Nat :=
  (List.range 8).map (fun i => addr / 2 ^ (16 * (7 - i)) % 65536)

/-- The length of the zero run starting at index `i`. -/
def runLenAt (hs : List Nat) (i : Nat) : Nat :=
  ((hs.drop i).takeWhile (· == 0)).length

/-- The leftmost longest run of zero hextets, as CPython's
`_compress_hextets` selects it. -/
def bestZeroRun (hs : List Nat) : Nat × Nat :=
  (List.range hs.length).foldl
    (fun best i =>
      let len := runLenAt hs i
      if len > best.2 then (i, len) else best)
    (0, 0)

/-- `str()` of an IPv6 address: lowercase hextets with the leftmost longest
zero run of length at least two compressed to `::`. -/
def ipv6AddrString (addr : Nat) : String :=
  let hs := v6Hextets addr
  let strs := hs.map hexStr
  let best := bestZeroRun hs
  if best.2 ≤ 1 then String.intercalate ":" strs
  else
    let core := strs.take best.1 ++ [""] ++ strs.drop (best.1 + best.2) ++
      (if best.1 + best.2 == 8 then [""] else [])
    String.intercalate ":" (if best.1 == 0 then "" :: core else core)

/-- `str()` of an IPv6 network object. -/
def ipv6NetString (n : IPv6Net) : String :=
  ipv6AddrString n.address ++ "/" ++ toString n.prefixLen

/-! ## `parse_value` and `_parse_ip_networks` -/

/-- The loop body of `_parse_ip_networks`, over the already-trimmed
segments: skip the `(none)` sentinel, parse each remaining segment as an IP
network unless `json` mode keeps it as a string.  Like the Python generator,
it fails at the first bad segment. -/
def parseIpNetworks (json : Bool) : List String → Except PErr (List NetStr)
  | [] => .ok []
  | seg :: rest =>
    if seg = "(none)" then parseIpNetworks json rest
    else if json then (parseIpNetworks json rest).map (NetStr.str seg :: ·)
    else
      match pyIpNetwork seg with
      | .error e => .error e
      | .ok n => (parseIpNetworks json rest).map (NetStr.ofNet n :: ·)

/-- `parse_value(key, value, json=json)`: typed coercion of a field value,
dispatching on the key.  `allowed ips` splits on commas; `listening port`
parses an int; `transfer` unpacks exactly two comma-separated segments and
strips the literal words `received` / `sent`; after those, a value equal to
`(hidden)` becomes `None`; anything else passes through. -/
def parse_value (key value : String) (json : Bool) : Except PErr PVal :=
  if key = "allowed ips" then
    (parseIpNetworks json ((pySplitOn value ",").map pyTrim)).map .vnets
  else if key = "listening port" then
    (pyInt value).map .vint
  else if key = "transfer" then
    match pySplitOn value "," with
    | [received, sent] =>
      .ok (.vdict [("received", pyTrim (pyReplace received "received" "")),
                   ("sent", pyTrim (pyReplace sent "sent" ""))])
    | _ => .error .valueError
  else if value = "(hidden)" then .ok .vnone
  else .ok (.vstr value)

/-! ## The line parsers -/

/-- `os.linesep` on the target platform. -/
def linesep : String := "\n"

/-- `key, value = line.split(": ")`: succeeds exactly when the delimiter
occurs exactly once (two parts); any other number of parts is an unpacking
`ValueError`. -/
def splitKV (l : String) : Except PErr (String × String) :=
  match pySplitOn l ": " with
  | [key, value] => .ok (key, value)
  | _ => .error .valueError

/-- The `if not raw: value = parse_value(...)` step: raw mode keeps the
split-off string. -/
def parsedVal (raw json : Bool) (key value : String) : Except PErr PVal :=
  if raw then .ok (.vstr value) else parse_value key value json

/-- Scan state of `parse_interface`: the interface dict as assigned so far
(its `peers` slot starts as a placeholder), the local `peers` dict, whether
the interface's `peers` entry still aliases that local dict (an ordinary
assignment to the key `peers` breaks the alias for good), and the current
peer name. -/
structure ISt where
  fields : IRec
  peers : List (PVal × PRec)
  attached : Bool
  curPeer : Option PVal
deriving DecidableEq, Repr

/-- Initial state of `parse_interface`. -/
def initI : ISt := ⟨[("peers", .peers [])], [], true, none⟩

/-- One loop iteration of `parse_interface`: skip blank lines, split on the
delimiter, coerce the value, then either open a new peer record, assign on
the interface dict (no current peer) or assign on the current peer record. -/
def stepI (raw json : Bool) (st : ISt) (line : String) : Except PErr ISt :=
  let l := pyTrim line
  if l = "" then .ok st
  else
    match splitKV l with
    | .error e => .error e
    | .ok (key, rawValue) =>
      match parsedVal raw json key rawValue with
      | .error e => .error e
      | .ok value =>
        if key = "peer" then
          .ok { st with peers := dset st.peers value [], curPeer := some value }
        else
          match st.curPeer with
          | none =>
            .ok { st with fields := dset st.fields key (.pv value),
                          attached := st.attached && !(key == "peers") }
          | some p =>
            .ok { st with peers := dmod p (fun pr => dset pr key value) st.peers }

/-- Run `parse_interface`'s loop over a list of lines. -/
def runI (raw json : Bool) : ISt → List String → Except PErr ISt
  | st, [] => .ok st
  | st, l :: rest =>
    match stepI raw json st l with
    | .error e => .error e
    | .ok st' => runI raw json st' rest

/-- The dict `parse_interface` returns: while the alias is intact the
`peers` slot shows the accumulated peers dict; once broken it keeps
whatever was assigned there, and later peer records are unreachable. -/
def finishI (st : ISt) : IRec :=
  if st.attached then dset st.fields "peers" (.peers st.peers) else st.fields

/-- `parse_interface` on a list of lines. -/
def parseInterfaceLines (raw json : Bool) (lines : List String) : Except PErr IRec :=
  (runI raw json initI lines).map finishI

/-- `parse_interface(text, raw=raw, json=json)`. -/
def parse_interface (text : String) (raw json : Bool) : Except PErr IRec :=
  parseInterfaceLines raw json (pySplitOn text linesep)

/-- Scan state of `parse_interfaces`: the result dict keyed by parsed
interface name, the initial anonymous record that collects assignments made
before any `interface` line (it is never added to the result), the current
interface name (`none` while still on the anonymous record) and the current
peer name. -/
structure MSt where
  interfaces : List (PVal × IRec)
  pre : IRec
  cur : Option PVal
  curPeer : Option PVal
deriving DecidableEq, Repr

/-- Initial state of `parse_interfaces`. -/
def initM : MSt := ⟨[], [], none, none⟩

/-- The dict the `interface` variable currently refers to. -/
def MSt.curRec (st : MSt) : IRec :=
  match st.cur with
  | none => st.pre
  | some n => (dget st.interfaces n).getD []

/-- Store an updated current record back: into the result dict when an
`interface` line has been seen, else into the anonymous record. -/
def MSt.setRec (st : MSt) (r : IRec) : MSt :=
  match st.cur with
  | none => { st with pre := r }
  | some n => { st with interfaces := dset st.interfaces n r }

/-- One loop iteration of `parse_interfaces`.  An `interface` line opens a
fresh record with an empty peers dict; a `peer` line indexes the current
record's `peers` entry (a missing entry is a `KeyError`, a non-dict entry a
`TypeError`); other lines assign on the interface record or on the current
peer record.  A peer-record assignment goes through the stored peers entry;
if that entry is gone the write lands in an unreachable dict and the state
is returned unchanged. -/
def stepM (raw json : Bool) (st : MSt) (line : String) : Except PErr MSt :=
  let l := pyTrim line
  if l = "" then .ok st
  else
    match splitKV l with
    | .error e => .error e
    | .ok (key, rawValue) =>
      match parsedVal raw json key rawValue with
      | .error e => .error e
      | .ok value =>
        if key = "interface" then
          .ok { st with interfaces := dset st.interfaces value [("peers", .peers [])],
                        cur := some value, curPeer := none }
        else if key = "peer" then
          match dget st.curRec "peers" with
          | none => .error .keyError
          | some (.pv _) => .error .typeError
          | some (.peers m) =>
            .ok { st.setRec (dset st.curRec "peers" (.peers (dset m value []))) with
                    curPeer := some value }
        else
          match st.curPeer with
          | none => .ok (st.setRec (dset st.curRec key (.pv value)))
          | some p =>
            match dget st.curRec "peers" with
            | some (.peers m) =>
              match dget m p with
              | some pr =>
                .ok (st.setRec (dset st.curRec "peers"
                      (.peers (dset m p (dset pr key value)))))
              | none => .ok st
            | _ => .ok st

/-- Run `parse_interfaces`'s loop over a list of lines. -/
def runM (raw json : Bool) : MSt → List String → Except PErr MSt
  | st, [] => .ok st
  | st, l :: rest =>
    match stepM raw json st l with
    | .error e => .error e
    | .ok st' => runM raw json st' rest

/-- `parse_interfaces` on a list of lines: only the result dict is
returned; the anonymous pre-interface record is discarded. -/
def parseInterfacesLines (raw json : Bool) (lines : List String) :
    Except PErr (List (PVal × IRec)) :=
  (runM raw json initM lines).map (·.interfaces)

/-- `parse_interfaces(text, raw=raw, json=json)`. -/
def parse_interfaces (text : String) (raw json : Bool) :
    Except PErr (List (PVal × IRec)) :=
  parseInterfacesLines raw json (pySplitOn text linesep)

/-! ## Argument assembly and process delegates -/

/-- An argument list handed to the external tool.  Arguments are values, not
just strings, because `peers_args` yields the pre-shared key object as-is. -/
abbrev Cmd := List PVal

/-- Python truthiness for the value shapes that can reach a settings dict:
empty strings, zero, `False`, `None` and empty containers are falsy. -/
def truthy : PVal → Bool
  | .vstr s => !(s == "")
  | .vint n => !(n == 0)
  | .vbool b => b
  | .vnone => false
  | .vnets l => !l.isEmpty
  | .vdict d => !d.isEmpty

/-- Python `str()` of a value.  Composite values get an abbreviated
rendering; no call site in the module applies `str()` to one. -/
def pyStr : PVal → String
  | .vstr s => s
  | .vint n => toString n
  | .vbool b => if b then "True" else "False"
  | .vnone => "None"
  | .vnets l => "[" ++ String.intercalate ", " (l.map fun e =>
      match e with
      | .net n => ipv4NetString n
      | .net6 n => ipv6NetString n
      | .str s => s) ++ "]"
  | .vdict d => "[" ++ String.intercalate ", " (d.map (·.1)) ++ "]"

/-- `str()` of one element of an `allowed-ips` list. -/
def netStrString : NetStr → String
  | .net n => ipv4NetString n
  | .net6 n => ipv6NetString n
  | .str s => s

/-- Iterating a value and applying `str()` to each element, as
`",".join(str(ip) for ip in allowed_ips)` does: lists yield their elements,
strings their characters, dicts their keys; numbers and `None` are not
iterable (`TypeError`). -/
def iterStrs : PVal → Except PErr (List String)
  | .vnets l => .ok (l.map netStrString)
  | .vstr s => .ok (s.data.map fun c => String.singleton c)
  | .vdict d => .ok (d.map (·.1))
  | _ => .error .typeError

/-- `peers_args(peers)`: for each peer, yield `peer` and its public key,
then each optional setting only when present and truthy, in the source's
fixed order: `remove`, `preshared-key` (the stored value itself),
`endpoint` and `persistent-keepalive` (through `str()`), and `allowed-ips`
(elements joined with commas). -/
def peers_args : List (PVal × PRec) → Except PErr Cmd
  | [] => .ok []
  | (peer, settings) :: rest =>
    let acc : Cmd := [.vstr "peer", peer]
    let acc := if truthy (pyGet settings "remove") then acc ++ [.vstr "remove"] else acc
    let psk := pyGet settings "preshared-key"
    let acc := if truthy psk then acc ++ [.vstr "preshared-key", psk] else acc
    let ep := pyGet settings "endpoint"
    let acc := if truthy ep then acc ++ [.vstr "endpoint", .vstr (pyStr ep)] else acc
    let ka := pyGet settings "persistent-keepalive"
    let acc := if truthy ka then acc ++ [.vstr "persistent-keepalive", .vstr (pyStr ka)] else acc
    let ai := pyGet settings "allowed-ips"
    match (if truthy ai then
            (iterStrs ai).map fun strs =>
              acc ++ [.vstr "allowed-ips", .vstr (String.intercalate "," strs)]
          else .ok acc) with
    | .error e => .error e
    | .ok acc2 =>
      match peers_args rest with
      | .error e => .error e
      | .ok tail => .ok (acc2 ++ tail)

/-- `wg set ...` (the module-level `set` function): assemble the argument
list from the optional fields and run the tool once.  The oracle models a
tool run that exits successfully, so the call returns exit status 0; a
failure while assembling the peer arguments aborts before any invocation.
`private_key` is the path appended to the argument list. -/
def pySet (wg : Cmd) (interface : String) (listen_port : Option Int)
    (fwmark : Option String) (private_key : Option String)
    (peers : List (PVal × PRec)) : List Cmd × Except PErr Int :=
  let args := wg ++ [.vstr "set", .vstr interface]
  let args := match listen_port with
    | some lp => args ++ [.vstr "listen-port", .vstr (toString lp)]
    | none => args
  let args := match fwmark with
    | some fm => args ++ [.vstr "fwmark", .vstr fm]
    | none => args
  let args := match private_key with
    | some pk => args ++ [.vstr "private-key", .vstr pk]
    | none => args
  if peers.isEmpty then ([args], .ok 0)
  else
    match peers_args peers with
    | .error e => ([], .error e)
    | .ok extra => ([args ++ extra], .ok 0)

/-- The result of `show`: one interface record, the all-interfaces dict, or
the plain list of interface names. -/
inductive ShowResult where
  | one : IRec → ShowResult
  | all : List (PVal × IRec) → ShowResult
  | names : List String → ShowResult
deriving DecidableEq, Repr

/-- The argument list of a `wg show` invocation. -/
def showArgs (wg : Cmd) (arg : String) : Cmd := wg ++ [.vstr "show", .vstr arg]

/-- `show(interface, raw=..., json=..., _wg=wg)`: query the tool, strip the
output, and parse it — per interface block for `all`, as a whitespace-split
name list for `interfaces`, as a single interface record otherwise. -/
def pyShow (env : Cmd → String) (wg : Cmd) (interface : String)
    (raw json : Bool) : List Cmd × Except PErr ShowResult :=
  if interface = "all" then
    ([showArgs wg "all"],
      (parse_interfaces (pyTrim (env (showArgs wg "all"))) raw json).map .all)
  else if interface = "interfaces" then
    ([showArgs wg "interfaces"],
      .ok (.names (pySplitWhitespace (pyTrim (env (showArgs wg "interfaces"))))))
  else
    ([showArgs wg interface],
      (parse_interface (pyTrim (env (showArgs wg interface))) raw json).map .one)

/-- `clear_peers` on one concrete interface name (neither `all` nor
`interfaces`): query its status, build a remove-settings dict from the
peers mapping, and call `set` only when that dict is nonempty.  Looking up
`peers` on the parse result can fail (`KeyError` when absent,
`AttributeError` when `.keys()` is called on a non-dict). -/
def clearPeersSingle (env : Cmd → String) (wg : Cmd) (interface : String) :
    List Cmd × Except PErr Unit :=
  match pyShow env wg interface false false with
  | (tr, .error e) => (tr, .error e)
  | (tr, .ok (.one r)) =>
    match dget r "peers" with
    | none => (tr, .error .keyError)
    | some (.pv _) => (tr, .error .attributeError)
    | some (.peers m) =>
      let peers := m.map fun kv => (kv.1, [("remove", PVal.vbool true)])
      if peers.isEmpty then (tr, .ok ())
      else
        match pySet wg interface none none none peers with
        | (tr2, .error e) => (tr ++ tr2, .error e)
        | (tr2, .ok _) => (tr ++ tr2, .ok ())
  | (tr, .ok _) => (tr, .error .typeError)

/-- The loop of `clear_all_peers`: clear each named interface in turn,
stopping at the first propagated exception. -/
def clearPeersGo (step : String → List Cmd × Except PErr Unit) :
    List String → List Cmd → List Cmd × Except PErr Unit
  | [], acc => (acc, .ok ())
  | n :: rest, acc =>
    match step n with
    | (t, .ok _) => clearPeersGo step rest (acc ++ t)
    | (t, .error e) => (acc ++ t, .error e)

/-- `clear_peers(interface, _wg=wg)`.  The reserved pseudo-name
`interfaces` raises `ValueError` before anything runs; `all` queries the
interface list and recurses on each name (`clear_all_peers`, with the fuel
standing in for Python's recursion limit); any other name is handled by
`clearPeersSingle`. -/
def clear_peers (env : Cmd → String) (wg : Cmd) : Nat → String →
    List Cmd × Except PErr Unit
  | 0, interface =>
    if interface = "interfaces" then ([], .error .valueError)
    else if interface = "all" then ([], .error .recursionError)
    else clearPeersSingle env wg interface
  | fuel + 1, interface =>
    if interface = "interfaces" then ([], .error .valueError)
    else if interface = "all" then
      match pyShow env wg "interfaces" false false with
      | (tr, .ok (.names ns)) => clearPeersGo (fun i => clear_peers env wg fuel i) ns tr
      | (tr, .ok _) => (tr, .error .typeError)
      | (tr, .error e) => (tr, .error e)
    else clearPeersSingle env wg interface

/-! ## Helper lemmas on dict operations and the parser loops -/

theorem dget_dset_self [DecidableEq κ] (d : List (κ × α)) (k : κ) (v : α) :
    dget (dset d k v) k = some v := by
  induction d with
  | nil => simp [dget, dset]
  | cons e r ih =>
    obtain ⟨k', v'⟩ := e
    by_cases h : k' = k <;> simp [dget, dset, h, ih]

theorem dget_dset_ne [DecidableEq κ] (d : List (κ × α)) (k k' : κ) (v : α)
    (h : k ≠ k') : dget (dset d k v) k' = dget d k' := by
  induction d with
  | nil => simp [dget, dset, h]
  | cons e r ih =>
    obtain ⟨k'', v''⟩ := e
    by_cases h2 : k'' = k
    · subst h2; simp [dget, dset, h]
    · simp [dget, dset, h2, ih]

theorem mem_dset [DecidableEq κ] (d : List (κ × α)) (k : κ) (v : α) (e : κ × α)
    (h : e ∈ dset d k v) : e = (k, v) ∨ e ∈ d := by
  induction d with
  | nil => simpa [dset] using h
  | cons hd r ih =>
    obtain ⟨k', v'⟩ := hd
    by_cases h2 : k' = k
    · subst h2
      rcases (by simpa [dset] using h : e = (k', v) ∨ e ∈ r) with h3 | h3
      · exact Or.inl h3
      · exact Or.inr (List.mem_cons_of_mem _ h3)
    · rcases (by simpa [dset, h2] using h : e = (k', v') ∨ e ∈ dset r k v) with h3 | h3
      · exact Or.inr (by simp [h3])
      · rcases ih h3 with h4 | h4
        · exact Or.inl h4
        · exact Or.inr (List.mem_cons_of_mem _ h4)

theorem dget_mem [DecidableEq κ] (d : List (κ × α)) (k : κ) (v : α)
    (h : dget d k = some v) : (k, v) ∈ d := by
  induction d with
  | nil => simp [dget] at h
  | cons e r ih =>
    obtain ⟨k', v'⟩ := e
    by_cases h2 : k' = k
    · subst h2
      simp [dget] at h
      simp [h]
    · simp [dget, h2] at h
      exact List.mem_cons_of_mem _ (ih h)

theorem dget_isSome_dset [DecidableEq κ] (d : List (κ × α)) (k k' : κ) (v : α)
    (h : (dget d k').isSome ∨ k = k') : (dget (dset d k v) k').isSome := by
  rcases h with h | h
  · by_cases h2 : k = k'
    · subst h2; simp [dget_dset_self]
    · rw [dget_dset_ne _ _ _ _ h2]; exact h
  · subst h; simp [dget_dset_self]

theorem runI_append (raw json : Bool) (st : ISt) (xs ys : List String) :
    runI raw json st (xs ++ ys) =
      match runI raw json st xs with
      | .error e => .error e
      | .ok st' => runI raw json st' ys := by
  induction xs generalizing st with
  | nil => simp [runI]
  | cons l rest ih =>
    simp only [List.cons_append, runI]
    cases stepI raw json st l with
    | error e => rfl
    | ok st' => exact ih st'

theorem runM_append (raw json : Bool) (st : MSt) (xs ys : List String) :
    runM raw json st (xs ++ ys) =
      match runM raw json st xs with
      | .error e => .error e
      | .ok st' => runM raw json st' ys := by
  induction xs generalizing st with
  | nil => simp [runM]
  | cons l rest ih =>
    simp only [List.cons_append, runM]
    cases stepM raw json st l with
    | error e => rfl
    | ok st' => exact ih st'

/-- A blank line leaves the `parse_interface` state unchanged. -/
theorem stepI_blank (raw json : Bool) (st : ISt) (l : String)
    (h : pyTrim l = "") : stepI raw json st l = .ok st := by
  simp [stepI, h]

/-- A blank line leaves the `parse_interfaces` state unchanged. -/
theorem stepM_blank (raw json : Bool) (st : MSt) (l : String)
    (h : pyTrim l = "") : stepM raw json st l = .ok st := by
  simp [stepM, h]

/-- A key other than the three specially coerced ones parses generically:
raw mode keeps the string, otherwise `(hidden)` maps to `None` and anything
else stays a string.  In particular such a line can never fail to parse. -/
theorem parsedVal_generic (raw json : Bool) (key v : String)
    (h1 : key ≠ "allowed ips") (h2 : key ≠ "listening port")
    (h3 : key ≠ "transfer") :
    parsedVal raw json key v =
      .ok (if raw then .vstr v else if v = "(hidden)" then .vnone else .vstr v) := by
  cases raw <;> by_cases hv : v = "(hidden)" <;>
    simp [parsedVal, parse_value, h1, h2, h3, hv]

/-- A line whose delimiter does not split it into exactly two parts makes
`splitKV` raise the unpacking `ValueError`. -/
theorem splitKV_error_of_len (l : String)
    (h : (pySplitOn l ": ").length ≠ 2) : splitKV l = .error .valueError := by
  rcases hm : pySplitOn l ": " with _ | ⟨a, _ | ⟨b, _ | ⟨c, r⟩⟩⟩
  · simp [splitKV, hm]
  · simp [splitKV, hm]
  · simp [hm] at h
  · simp [splitKV, hm]

theorem setRec_none (st : MSt) (r : IRec) (h : st.cur = none) :
    st.setRec r = { st with pre := r } := by
  simp [MSt.setRec, h]

theorem setRec_some (st : MSt) (r : IRec) (n : PVal) (h : st.cur = some n) :
    st.setRec r = { st with interfaces := dset st.interfaces n r } := by
  simp [MSt.setRec, h]

theorem curRec_some (st : MSt) (n : PVal) (r : IRec) (h1 : st.cur = some n)
    (h2 : dget st.interfaces n = some r) : st.curRec = r := by
  simp [MSt.curRec, h1, h2]

/-- One `parse_interface` step keeps the peers alias intact when the line
does not assign the key `peers` at the top level, and keeps the peers dict
empty when the line is no `peer` marker. -/
theorem stepI_preserve (raw json : Bool) (st : ISt) (l : String) (st' : ISt)
    (h : stepI raw json st l = .ok st') :
    ((pyTrim l ≠ "" → ∀ k v, splitKV (pyTrim l) = .ok (k, v) → k ≠ "peers") →
      st.attached = true → st'.attached = true) ∧
    ((pyTrim l ≠ "" → ∀ k v, splitKV (pyTrim l) = .ok (k, v) → k ≠ "peer") →
      st.peers = [] → st'.peers = []) := by
  by_cases hbl : pyTrim l = ""
  · rw [stepI_blank raw json st l hbl] at h
    injection h with h
    subst h
    exact ⟨fun _ ha => ha, fun _ hp => hp⟩
  · simp only [stepI] at h
    rw [if_neg hbl] at h
    cases hsp : splitKV (pyTrim l) with
    | error e => rw [hsp] at h; cases h
    | ok kv =>
      obtain ⟨k, v⟩ := kv
      rw [hsp] at h
      dsimp only at h
      cases hpv : parsedVal raw json k v with
      | error e => rw [hpv] at h; cases h
      | ok pv =>
        rw [hpv] at h
        dsimp only at h
        by_cases hkp : k = "peer"
        · rw [if_pos hkp] at h
          injection h with h
          subst h
          refine ⟨fun _ ha => ha, fun hnp _ => ?_⟩
          exact absurd hkp (hnp hbl k v rfl)
        · rw [if_neg hkp] at h
          cases hcp : st.curPeer with
          | none =>
            rw [hcp] at h
            injection h with h
            subst h
            refine ⟨fun hna ha => ?_, fun _ hp => hp⟩
            have : k ≠ "peers" := hna hbl k v rfl
            simp [ha, this]
          | some p =>
            rw [hcp] at h
            injection h with h
            subst h
            exact ⟨fun _ ha => ha, fun _ hp => by simp [hp, dmod]⟩

/-- Running `parse_interface` over lines none of which assigns the key
`peers` keeps the alias flag set. -/
theorem runI_attached (raw json : Bool) (lines : List String)
    (hno : ∀ l ∈ lines, pyTrim l ≠ "" → ∀ k v,
      splitKV (pyTrim l) = .ok (k, v) → k ≠ "peers") :
    ∀ st st', runI raw json st lines = .ok st' → st.attached = true →
      st'.attached = true := by
  induction lines with
  | nil => intro st st' h ha; rw [runI] at h; injection h with h; subst h; exact ha
  | cons l rest ih =>
    intro st st' h ha
    rw [runI] at h
    cases hstep : stepI raw json st l with
    | error e => rw [hstep] at h; cases h
    | ok st1 =>
      rw [hstep] at h
      have h1 := (stepI_preserve raw json st l st1 hstep).1
        (hno l (List.mem_cons_self l rest)) ha
      exact ih (fun l' hm => hno l' (List.mem_cons_of_mem _ hm)) st1 st' h h1

/-- Running `parse_interface` over lines with no `peer` marker keeps the
peers dict empty. -/
theorem runI_no_peer (raw json : Bool) (lines : List String)
    (hnp : ∀ l ∈ lines, pyTrim l ≠ "" → ∀ k v,
      splitKV (pyTrim l) = .ok (k, v) → k ≠ "peer") :
    ∀ st st', runI raw json st lines = .ok st' → st.peers = [] →
      st'.peers = [] := by
  induction lines with
  | nil => intro st st' h hp; rw [runI] at h; injection h with h; subst h; exact hp
  | cons l rest ih =>
    intro st st' h hp
    rw [runI] at h
    cases hstep : stepI raw json st l with
    | error e => rw [hstep] at h; cases h
    | ok st1 =>
      rw [hstep] at h
      have h1 := (stepI_preserve raw json st l st1 hstep).2
        (hnp l (List.mem_cons_self l rest)) hp
      exact ih (fun l' hm => hnp l' (List.mem_cons_of_mem _ hm)) st1 st' h h1

/-- The invariant of the multi-interface scan: every record in the result
dict has a `peers` entry holding a peers dict, and the current interface
name, when set, is present in the result dict. -/
def MInv (st : MSt) : Prop :=
  (∀ e ∈ st.interfaces, ∃ m, dget e.2 "peers" = some (IVal.peers m)) ∧
  (∀ n, st.cur = some n → (dget st.interfaces n).isSome)

/-- Storing a record whose `peers` entry is a peers dict preserves the
invariant. -/
theorem minv_setRec (st : MSt) (r : IRec) (hinv : MInv st)
    (hr : ∀ n, st.cur = some n → ∃ m, dget r "peers" = some (IVal.peers m)) :
    MInv (st.setRec r) := by
  cases hc : st.cur with
  | none =>
    rw [setRec_none st r hc]
    exact ⟨hinv.1, fun n hn => by rw [hc] at hn ⊢; cases hn⟩
  | some n =>
    rw [setRec_some st r n hc]
    constructor
    · intro e he
      rcases mem_dset _ _ _ _ he with rfl | he'
      · exact hr n hc
      · exact hinv.1 e he'
    · intro n' hn'
      rw [hc] at hn'
      injection hn' with hn'
      subst hn'
      exact dget_isSome_dset _ _ _ _ (Or.inr rfl)

/-- One `parse_interfaces` step preserves the invariant as long as the line
does not assign the key `peers` at the interface level (no line with key
`peers` at all suffices). -/
theorem stepM_minv (raw json : Bool) (st : MSt) (l : String) (st' : MSt)
    (h : stepM raw json st l = .ok st')
    (hl : pyTrim l ≠ "" → ∀ k v, splitKV (pyTrim l) = .ok (k, v) → k ≠ "peers")
    (hinv : MInv st) : MInv st' := by
  by_cases hbl : pyTrim l = ""
  · rw [stepM_blank raw json st l hbl] at h
    injection h with h
    subst h
    exact hinv
  · simp only [stepM] at h
    rw [if_neg hbl] at h
    cases hsp : splitKV (pyTrim l) with
    | error e => rw [hsp] at h; cases h
    | ok kv =>
      obtain ⟨k, v⟩ := kv
      rw [hsp] at h
      dsimp only at h
      cases hpv : parsedVal raw json k v with
      | error e => rw [hpv] at h; cases h
      | ok pv =>
        rw [hpv] at h
        dsimp only at h
        by_cases hki : k = "interface"
        · rw [if_pos hki] at h
          injection h with h
          subst h
          constructor
          · intro e he
            rcases mem_dset _ _ _ _ he with rfl | he'
            · exact ⟨[], by simp [dget]⟩
            · exact hinv.1 e he'
          · intro n hn
            simp only at hn
            injection hn with hn
            subst hn
            exact dget_isSome_dset _ _ _ _ (Or.inr rfl)
        · rw [if_neg hki] at h
          by_cases hkp : k = "peer"
          · rw [if_pos hkp] at h
            cases hg : dget st.curRec "peers" with
            | none => rw [hg] at h; cases h
            | some iv =>
              rw [hg] at h
              cases iv with
              | pv q => cases h
              | peers m =>
                injection h with h
                subst h
                have base := minv_setRec st
                  (dset st.curRec "peers" (.peers (dset m pv []))) hinv
                  (fun n hn => ⟨dset m pv [], dget_dset_self _ _ _⟩)
                exact ⟨base.1, base.2⟩
          · rw [if_neg hkp] at h
            cases hcp : st.curPeer with
            | none =>
              rw [hcp] at h
              injection h with h
              subst h
              refine minv_setRec st _ hinv (fun n hn => ?_)
              obtain ⟨r, hr⟩ := Option.isSome_iff_exists.mp (hinv.2 n hn)
              rw [curRec_some st n r hn hr]
              have hkne : k ≠ "peers" := hl hbl k v hsp
              rw [dget_dset_ne _ _ _ _ hkne]
              exact hinv.1 (n, r) (dget_mem _ _ _ hr)
            | some p =>
              rw [hcp] at h
              dsimp only at h
              cases hg : dget st.curRec "peers" with
              | none => rw [hg] at h; injection h with h; subst h; exact hinv
              | some iv =>
                rw [hg] at h
                cases iv with
                | pv q => injection h with h; subst h; exact hinv
                | peers m =>
                  dsimp only at h
                  cases hgp : dget m p with
                  | none => rw [hgp] at h; injection h with h; subst h; exact hinv
                  | some pr =>
                    rw [hgp] at h
                    injection h with h
                    subst h
                    exact minv_setRec st _ hinv
                      (fun n hn => ⟨dset m p (dset pr k pv), dget_dset_self _ _ _⟩)

/-- Decidable check that a line, when nonblank and well-formed, does not
carry the key `bad`. -/
def noKeyB (bad : String) (l : String) : Bool :=
  match splitKV (pyTrim l) with
  | .ok (k, _) => !(k == bad)
  | .error _ => true

theorem noKeyB_spec (bad l : String) (h : noKeyB bad l = true) :
    ∀ k v, splitKV (pyTrim l) = .ok (k, v) → k ≠ bad := by
  intro k v hsp
  unfold noKeyB at h
  rw [hsp] at h
  simpa using h

/-- The zero-peer invariant of the multi-interface scan: every record's
`peers` entry is the empty dict and no peer is current. -/
def MInvZ (st : MSt) : Prop :=
  (∀ e ∈ st.interfaces, dget e.2 "peers" = some (IVal.peers [])) ∧
  (∀ n, st.cur = some n → (dget st.interfaces n).isSome) ∧
  st.curPeer = none

/-- Storing a record with an empty peers dict preserves the zero-peer
invariant. -/
theorem minvz_setRec (st : MSt) (r : IRec) (hinv : MInvZ st)
    (hr : ∀ n, st.cur = some n → dget r "peers" = some (IVal.peers [])) :
    MInvZ (st.setRec r) := by
  cases hc : st.cur with
  | none =>
    rw [setRec_none st r hc]
    refine ⟨hinv.1, fun n hn => ?_, hinv.2.2⟩
    rw [hc] at hn
    cases hn
  | some n =>
    rw [setRec_some st r n hc]
    refine ⟨?_, ?_, hinv.2.2⟩
    · intro e he
      rcases mem_dset _ _ _ _ he with rfl | he'
      · exact hr n hc
      · exact hinv.1 e he'
    · intro n' hn'
      rw [hc] at hn'
      injection hn' with hn'
      subst hn'
      exact dget_isSome_dset _ _ _ _ (Or.inr rfl)

/-- One `parse_interfaces` step preserves the zero-peer invariant when the
line carries neither the key `peers` nor the key `peer`. -/
theorem stepM_minvz (raw json : Bool) (st : MSt) (l : String) (st' : MSt)
    (h : stepM raw json st l = .ok st')
    (hl : ∀ k v, splitKV (pyTrim l) = .ok (k, v) → k ≠ "peers")
    (hnp : ∀ k v, splitKV (pyTrim l) = .ok (k, v) → k ≠ "peer")
    (hinv : MInvZ st) : MInvZ st' := by
  by_cases hbl : pyTrim l = ""
  · rw [stepM_blank raw json st l hbl] at h
    injection h with h
    subst h
    exact hinv
  · simp only [stepM] at h
    rw [if_neg hbl] at h
    cases hsp : splitKV (pyTrim l) with
    | error e => rw [hsp] at h; cases h
    | ok kv =>
      obtain ⟨k, v⟩ := kv
      rw [hsp] at h
      dsimp only at h
      cases hpv : parsedVal raw json k v with
      | error e => rw [hpv] at h; cases h
      | ok pv =>
        rw [hpv] at h
        dsimp only at h
        by_cases hki : k = "interface"
        · rw [if_pos hki] at h
          injection h with h
          subst h
          refine ⟨?_, ?_, rfl⟩
          · intro e he
            rcases mem_dset _ _ _ _ he with rfl | he'
            · simp [dget]
            · exact hinv.1 e he'
          · intro n hn
            simp only at hn
            injection hn with hn
            subst hn
            exact dget_isSome_dset _ _ _ _ (Or.inr rfl)
        · rw [if_neg hki] at h
          by_cases hkp : k = "peer"
          · exact absurd hkp (hnp k v hsp)
          · rw [if_neg hkp] at h
            rw [hinv.2.2] at h
            dsimp only at h
            injection h with h
            subst h
            refine minvz_setRec st _ hinv (fun n hn => ?_)
            obtain ⟨r, hr⟩ := Option.isSome_iff_exists.mp (hinv.2.1 n hn)
            rw [curRec_some st n r hn hr]
            have hkne : k ≠ "peers" := hl k v hsp
            rw [dget_dset_ne _ _ _ _ hkne]
            exact hinv.1 (n, r) (dget_mem _ _ _ hr)

/-- Running `parse_interfaces` over lines with neither `peers` nor `peer`
keys preserves the zero-peer invariant. -/
theorem runM_minvz (raw json : Bool) (lines : List String)
    (hno : ∀ l ∈ lines, noKeyB "peers" l = true)
    (hnp : ∀ l ∈ lines, noKeyB "peer" l = true) :
    ∀ st st', runM raw json st lines = .ok st' → MInvZ st → MInvZ st' := by
  induction lines with
  | nil => intro st st' h hinv; rw [runM] at h; injection h with h; subst h; exact hinv
  | cons l rest ih =>
    intro st st' h hinv
    rw [runM] at h
    cases hstep : stepM raw json st l with
    | error e => rw [hstep] at h; cases h
    | ok st1 =>
      rw [hstep] at h
      refine ih (fun l' hm => hno l' (List.mem_cons_of_mem _ hm))
        (fun l' hm => hnp l' (List.mem_cons_of_mem _ hm)) st1 st' h ?_
      exact stepM_minvz raw json st l st1 hstep
        (noKeyB_spec _ _ (hno l (List.mem_cons_self l rest)))
        (noKeyB_spec _ _ (hnp l (List.mem_cons_self l rest))) hinv

/-- Running `parse_interfaces` over lines none of which has the key `peers`
preserves the invariant. -/
theorem runM_minv (raw json : Bool) (lines : List String)
    (hno : ∀ l ∈ lines, pyTrim l ≠ "" → ∀ k v,
      splitKV (pyTrim l) = .ok (k, v) → k ≠ "peers") :
    ∀ st st', runM raw json st lines = .ok st' → MInv st → MInv st' := by
  induction lines with
  | nil => intro st st' h hinv; rw [runM] at h; injection h with h; subst h; exact hinv
  | cons l rest ih =>
    intro st st' h hinv
    rw [runM] at h
    cases hstep : stepM raw json st l with
    | error e => rw [hstep] at h; cases h
    | ok st1 =>
      rw [hstep] at h
      exact ih (fun l' hm => hno l' (List.mem_cons_of_mem _ hm)) st1 st' h
        (stepM_minv raw json st l st1 hstep (hno l (List.mem_cons_self l rest)) hinv)

/-- Decidable check that a line is blank or an ordinary, successfully
parsing key/value line (neither marker key), i.e. a line the
pre-`interface` anonymous record absorbs without failing. -/
def preDiscardOk (raw json : Bool) (l : String) : Bool :=
  pyTrim l == "" ||
    (match splitKV (pyTrim l) with
     | .ok (k, v) => !(k == "interface") && !(k == "peer") &&
         (match parsedVal raw json k v with
          | .ok _ => true
          | .error _ => false)
     | .error _ => false)

/-- Blank lines leave the multi-interface state unchanged. -/
theorem runM_blanks (raw json : Bool) (bs : List String)
    (h : ∀ b ∈ bs, pyTrim b = "") (st : MSt) :
    runM raw json st bs = .ok st := by
  induction bs with
  | nil => rfl
  | cons b rest ih =>
    rw [runM, stepM_blank raw json st b (h b (List.mem_cons_self b rest))]
    exact ih (fun b' hm => h b' (List.mem_cons_of_mem _ hm))

/-- Before any `interface` line, an absorbable line only changes the
anonymous record. -/
theorem stepM_pre (raw json : Bool) (l : String) (ifc : List (PVal × IRec))
    (p : IRec) (h : preDiscardOk raw json l = true) :
    ∃ p', stepM raw json ⟨ifc, p, none, none⟩ l = .ok ⟨ifc, p', none, none⟩ := by
  unfold preDiscardOk at h
  by_cases hbl : pyTrim l = ""
  · exact ⟨p, stepM_blank _ _ _ _ hbl⟩
  · simp [hbl] at h
    cases hsp : splitKV (pyTrim l) with
    | error e => rw [hsp] at h; simp at h
    | ok kv =>
      obtain ⟨k, v⟩ := kv
      rw [hsp] at h
      dsimp only at h
      cases hpv : parsedVal raw json k v with
      | error e => rw [hpv] at h; simp at h
      | ok pv =>
        rw [hpv] at h
        simp at h
        obtain ⟨hki, hkp⟩ := h
        refine ⟨dset p k (.pv pv), ?_⟩
        simp only [stepM]
        rw [if_neg hbl, hsp]
        dsimp only
        rw [hpv]
        dsimp only
        rw [if_neg hki, if_neg hkp]
        rfl

/-- Running absorbable lines before any `interface` line only changes the
anonymous record. -/
theorem runM_pre (raw json : Bool) (pre : List String)
    (h : ∀ l ∈ pre, preDiscardOk raw json l = true) :
    ∀ (ifc : List (PVal × IRec)) (p : IRec), ∃ p',
      runM raw json ⟨ifc, p, none, none⟩ pre = .ok ⟨ifc, p', none, none⟩ := by
  induction pre with
  | nil => intro ifc p; exact ⟨p, rfl⟩
  | cons l rest ih =>
    intro ifc p
    obtain ⟨p1, hp1⟩ := stepM_pre raw json l ifc p (h l (List.mem_cons_self l rest))
    obtain ⟨p', hp'⟩ := ih (fun l' hm => h l' (List.mem_cons_of_mem _ hm)) ifc p1
    refine ⟨p', ?_⟩
    rw [runM, hp1]
    exact hp'

/-- Once an `interface` line has been seen, a step never reads or writes
the anonymous record: its result only differs in carrying it along. -/
theorem stepM_pre_param (raw json : Bool) (l : String)
    (ifc : List (PVal × IRec)) (c : PVal) (cp : Option PVal) (p q : IRec) :
    stepM raw json ⟨ifc, p, some c, cp⟩ l =
      (stepM raw json ⟨ifc, q, some c, cp⟩ l).map
        (fun st' => { st' with pre := p }) := by
  by_cases hbl : pyTrim l = ""
  · simp [stepM_blank raw json _ l hbl, Except.map]
  · simp only [stepM]
    rw [if_neg hbl, if_neg hbl]
    cases splitKV (pyTrim l) with
    | error e => rfl
    | ok kv =>
      obtain ⟨k, v⟩ := kv
      dsimp only
      cases parsedVal raw json k v with
      | error e => rfl
      | ok pv =>
        dsimp only
        by_cases hki : k = "interface"
        · rw [if_pos hki, if_pos hki]; rfl
        · rw [if_neg hki, if_neg hki]
          by_cases hkp : k = "peer"
          · rw [if_pos hkp, if_pos hkp]
            simp only [MSt.curRec, MSt.setRec]
            cases dget ((dget ifc c).getD []) "peers" with
            | none => rfl
            | some iv => cases iv with
              | pv x => rfl
              | peers m => rfl
          · rw [if_neg hkp, if_neg hkp]
            cases cp with
            | none => rfl
            | some pp =>
              simp only [MSt.curRec, MSt.setRec]
              cases dget ((dget ifc c).getD []) "peers" with
              | none => rfl
              | some iv => cases iv with
                | pv x => rfl
                | peers m =>
                  dsimp only
                  cases dget m pp with
                  | none => rfl
                  | some pr => rfl

/-- A step from a state with a current interface keeps some current
interface. -/
theorem stepM_cur_some (raw json : Bool) (l : String) (st st' : MSt)
    (h : stepM raw json st l = .ok st') (hc : st.cur.isSome) :
    st'.cur.isSome := by
  by_cases hbl : pyTrim l = ""
  · rw [stepM_blank raw json st l hbl] at h
    injection h with h
    subst h
    exact hc
  · simp only [stepM] at h
    rw [if_neg hbl] at h
    cases hsp : splitKV (pyTrim l) with
    | error e => rw [hsp] at h; cases h
    | ok kv =>
      obtain ⟨k, v⟩ := kv
      rw [hsp] at h
      dsimp only at h
      cases hpv : parsedVal raw json k v with
      | error e => rw [hpv] at h; cases h
      | ok pv =>
        rw [hpv] at h
        dsimp only at h
        by_cases hki : k = "interface"
        · rw [if_pos hki] at h
          injection h with h
          subst h
          simp
        · rw [if_neg hki] at h
          by_cases hkp : k = "peer"
          · rw [if_pos hkp] at h
            cases hg : dget st.curRec "peers" with
            | none => rw [hg] at h; cases h
            | some iv =>
              rw [hg] at h
              cases iv with
              | pv x => cases h
              | peers m =>
                injection h with h
                subst h
                cases hcs : st.cur with
                | none => rw [hcs] at hc; cases hc
                | some n => simp [MSt.setRec, hcs]
          · rw [if_neg hkp] at h
            cases hcp : st.curPeer with
            | none =>
              rw [hcp] at h
              injection h with h
              subst h
              cases hcs : st.cur with
              | none => rw [hcs] at hc; cases hc
              | some n => simp [MSt.setRec, hcs]
            | some pp =>
              rw [hcp] at h
              dsimp only at h
              cases hg : dget st.curRec "peers" with
              | none => rw [hg] at h; injection h with h; subst h; exact hc
              | some iv =>
                rw [hg] at h
                cases iv with
                | pv x => injection h with h; subst h; exact hc
                | peers m =>
                  dsimp only at h
                  cases hgp : dget m pp with
                  | none => rw [hgp] at h; injection h with h; subst h; exact hc
                  | some pr =>
                    rw [hgp] at h
                    injection h with h
                    subst h
                    cases hcs : st.cur with
                    | none => rw [hcs] at hc; cases hc
                    | some n => simp [MSt.setRec, hcs]

/-- Once an `interface` line has been seen, the anonymous record never
influences the parse result. -/
theorem runM_pre_irrelevant (raw json : Bool) (lines : List String) :
    ∀ (ifc : List (PVal × IRec)) (c : PVal) (cp : Option PVal) (p q : IRec),
      (runM raw json ⟨ifc, p, some c, cp⟩ lines).map (·.interfaces) =
        (runM raw json ⟨ifc, q, some c, cp⟩ lines).map (·.interfaces) := by
  induction lines with
  | nil => intro ifc c cp p q; rfl
  | cons l rest ih =>
    intro ifc c cp p q
    rw [runM, runM, stepM_pre_param raw json l ifc c cp p q]
    cases hstep : stepM raw json ⟨ifc, q, some c, cp⟩ l with
    | error e => rfl
    | ok st' =>
      have hcs := stepM_cur_some raw json l ⟨ifc, q, some c, cp⟩ st' hstep (by simp)
      obtain ⟨ifc', pre', cur', cp'⟩ := st'
      obtain ⟨c', hc'⟩ := Option.isSome_iff_exists.mp hcs
      simp only at hc'
      subst hc'
      dsimp only [Except.map]
      exact ih ifc' c' cp' p pre'

/-! ## Claim theorems -/

/-- Claim C1: the scoping invariant of both parsers.  For any scan state,
a well-formed key/value line that is not a marker line is stored on the
current peer's record when a `peer` line has been seen (leaving the
interface fields untouched) and on the interface record otherwise (leaving
the peers untouched); a `peer` marker opens a fresh record for that peer
and makes it current; an `interface` marker (multi-interface parser only)
opens a fresh interface record and resets the current peer, so a peer's
scope extends exactly to the next `peer` or `interface` line. -/
theorem claimC1_peer_scoping (raw json : Bool) :
    (∀ (st : ISt) (l key value : String) (pv : PVal),
      pyTrim l ≠ "" → splitKV (pyTrim l) = .ok (key, value) →
      parsedVal raw json key value = .ok pv →
      (key ≠ "peer" →
        (st.curPeer = none →
          stepI raw json st l = .ok { st with
            fields := dset st.fields key (.pv pv),
            attached := st.attached && !(key == "peers") }) ∧
        (∀ p, st.curPeer = some p →
          stepI raw json st l = .ok { st with
            peers := dmod p (fun pr => dset pr key pv) st.peers })) ∧
      (key = "peer" →
        stepI raw json st l = .ok { st with
          peers := dset st.peers pv [], curPeer := some pv }))
    ∧
    (∀ (st : MSt) (l key value : String) (pv : PVal),
      pyTrim l ≠ "" → splitKV (pyTrim l) = .ok (key, value) →
      parsedVal raw json key value = .ok pv →
      (key ≠ "peer" → key ≠ "interface" →
        (st.curPeer = none →
          stepM raw json st l = .ok (st.setRec (dset st.curRec key (.pv pv)))) ∧
        (∀ p m pr, st.curPeer = some p →
          dget st.curRec "peers" = some (.peers m) → dget m p = some pr →
          stepM raw json st l = .ok (st.setRec (dset st.curRec "peers"
            (.peers (dset m p (dset pr key pv))))))) ∧
      (key = "interface" →
        stepM raw json st l = .ok { st with
          interfaces := dset st.interfaces pv [("peers", .peers [])],
          cur := some pv, curPeer := none }) ∧
      (key = "peer" → ∀ m, dget st.curRec "peers" = some (.peers m) →
        stepM raw json st l = .ok { st.setRec (dset st.curRec "peers"
          (.peers (dset m pv []))) with curPeer := some pv })) := by
  constructor
  · intro st l key value pv hbl hsplit hpv
    refine ⟨fun hkey => ⟨fun hnone => ?_, fun p hsome => ?_⟩, fun hkey => ?_⟩
    · simp [stepI, hbl, hsplit, hpv, hkey, hnone]
    · simp [stepI, hbl, hsplit, hpv, hkey, hsome]
    · subst hkey; simp [stepI, hbl, hsplit, hpv]
  · intro st l key value pv hbl hsplit hpv
    refine ⟨fun hkp => fun hki => ⟨fun hnone => ?_, fun p m pr hsome hm hp => ?_⟩,
      fun hkey => ?_, fun hkey m hm => ?_⟩
    · simp [stepM, hbl, hsplit, hpv, hkp, hki, hnone]
    · simp [stepM, hbl, hsplit, hpv, hkp, hki, hsome, hm, hp]
    · subst hkey; simp [stepM, hbl, hsplit, hpv]
    · subst hkey; simp [stepM, hbl, hsplit, hpv, hm]

/-- Witness for claim C1: a concrete ordinary line stored on the interface
record of the initial single-interface state. -/
theorem claimC1_witness :
    pyTrim "foo: bar" ≠ "" ∧
    splitKV (pyTrim "foo: bar") = .ok ("foo", "bar") ∧
    parsedVal false false "foo" "bar" = .ok (.vstr "bar") ∧
    stepI false false initI "foo: bar" = .ok { initI with
      fields := dset initI.fields "foo" (.pv (.vstr "bar")),
      attached := initI.attached && !("foo" == "peers") } :=
  ⟨by decide, rfl, rfl,
    (((claimC1_peer_scoping false false).1 initI "foo: bar" "foo" "bar"
      (.vstr "bar") (by decide) rfl rfl).1 (by decide)).1 rfl⟩

/-- A nonblank line with the wrong number of delimiter occurrences makes
the single-interface loop fail. -/
theorem runI_error_of_bad_line (raw json : Bool) (lines : List String)
    (st : ISt)
    (h : ∃ l ∈ lines, pyTrim l ≠ "" ∧ (pySplitOn (pyTrim l) ": ").length ≠ 2) :
    ∃ e, runI raw json st lines = .error e := by
  induction lines generalizing st with
  | nil => simp at h
  | cons l rest ih =>
    rcases h with ⟨l', hmem, hbl, hlen⟩
    rcases List.mem_cons.mp hmem with rfl | hmem'
    · exact ⟨.valueError, by
        simp [runI, stepI, hbl, splitKV_error_of_len _ hlen]⟩
    · cases hstep : stepI raw json st l with
      | error e => exact ⟨e, by simp [runI, hstep]⟩
      | ok st' =>
        obtain ⟨e, he⟩ := ih st' ⟨l', hmem', hbl, hlen⟩
        exact ⟨e, by simp [runI, hstep, he]⟩

/-- A nonblank line with the wrong number of delimiter occurrences makes
the multi-interface loop fail. -/
theorem runM_error_of_bad_line (raw json : Bool) (lines : List String)
    (st : MSt)
    (h : ∃ l ∈ lines, pyTrim l ≠ "" ∧ (pySplitOn (pyTrim l) ": ").length ≠ 2) :
    ∃ e, runM raw json st lines = .error e := by
  induction lines generalizing st with
  | nil => simp at h
  | cons l rest ih =>
    rcases h with ⟨l', hmem, hbl, hlen⟩
    rcases List.mem_cons.mp hmem with rfl | hmem'
    · exact ⟨.valueError, by
        simp [runM, stepM, hbl, splitKV_error_of_len _ hlen]⟩
    · cases hstep : stepM raw json st l with
      | error e => exact ⟨e, by simp [runM, hstep]⟩
      | ok st' =>
        obtain ⟨e, he⟩ := ih st' ⟨l', hmem', hbl, hlen⟩
        exact ⟨e, by simp [runM, hstep, he]⟩

/-- Claim C3: an input containing a nonblank line that, after trimming,
does not split into exactly two parts at the delimiter (a string with `k`
occurrences of `": "` splits into `k + 1` parts, so this says the count is
not exactly one) makes both parsers fail with a parsing error instead of
returning a result. -/
theorem claimC3_malformed_line (text : String) (raw json : Bool)
    (h : ∃ l ∈ pySplitOn text linesep, pyTrim l ≠ "" ∧
      (pySplitOn (pyTrim l) ": ").length ≠ 2) :
    (∃ e, parse_interface text raw json = .error e) ∧
    (∃ e, parse_interfaces text raw json = .error e) := by
  constructor
  · obtain ⟨e, he⟩ := runI_error_of_bad_line raw json (pySplitOn text linesep) initI h
    exact ⟨e, by simp [parse_interface, parseInterfaceLines, he, Except.map]⟩
  · obtain ⟨e, he⟩ := runM_error_of_bad_line raw json (pySplitOn text linesep) initM h
    exact ⟨e, by simp [parse_interfaces, parseInterfacesLines, he, Except.map]⟩

/-- Witness for claim C3: a one-line input with no delimiter at all. -/
theorem claimC3_witness :
    (∃ l ∈ pySplitOn "garbage" linesep, pyTrim l ≠ "" ∧
      (pySplitOn (pyTrim l) ": ").length ≠ 2) ∧
    (∃ e, parse_interface "garbage" false false = .error e) ∧
    (∃ e, parse_interfaces "garbage" false false = .error e) :=
  ⟨by decide, (claimC3_malformed_line "garbage" false false (by decide)).1,
    (claimC3_malformed_line "garbage" false false (by decide)).2⟩

/-- Claim C2 is false as stated: the `(hidden)` check in `parse_value` runs
only after the special-key coercions, so for the key `allowed ips` in
JSON-compatible mode the value `(hidden)` parses to the one-element string
list, not to `None`, and for `listening port` it raises `ValueError`. -/
theorem claimC2_counterexample :
    parse_value "allowed ips" "(hidden)" true ≠ .ok PVal.vnone ∧
    parse_value "allowed ips" "(hidden)" true = .ok (.vnets [.str "(hidden)"]) ∧
    parse_value "listening port" "(hidden)" false = .error .valueError := by
  refine ⟨?_, rfl, rfl⟩
  intro h
  rw [show parse_value "allowed ips" "(hidden)" true
        = .ok (.vnets [.str "(hidden)"]) from rfl] at h
  injection h with h'
  cases h'

/-- Claim C2, amended: in non-raw mode a value equal to the literal
`(hidden)` parses to `None` for every key other than the specially coerced
keys `allowed ips`, `listening port` and `transfer`; for those three keys
the coercion branch runs first instead. -/
theorem claimC2_hidden (key : String) (json : Bool)
    (h1 : key ≠ "allowed ips") (h2 : key ≠ "listening port")
    (h3 : key ≠ "transfer") :
    parse_value key "(hidden)" json = .ok .vnone := by
  simp [parse_value, h1, h2, h3]

/-- Witness for the amended claim C2 at the key `private key`. -/
theorem claimC2_hidden_witness :
    ("private key" ≠ "allowed ips" ∧ "private key" ≠ "listening port" ∧
      "private key" ≠ "transfer") ∧
    parse_value "private key" "(hidden)" false = .ok .vnone :=
  ⟨by decide, claimC2_hidden "private key" false (by decide) (by decide) (by decide)⟩

/-- JSON mode keeps each non-`(none)` segment as a string. -/
theorem parseIpNetworks_json (segs : List String) :
    parseIpNetworks true segs =
      .ok ((segs.filter (fun s => s ≠ "(none)")).map NetStr.str) := by
  induction segs with
  | nil => simp [parseIpNetworks]
  | cons seg rest ih =>
    by_cases h : seg = "(none)" <;> simp [parseIpNetworks, h, ih, Except.map]

/-- Map a fallible function over a list, failing at the first error. -/
def mapExcept (f : α → Except PErr β) : List α → Except PErr (List β)
  | [] => .ok []
  | a :: as =>
    match f a with
    | .error e => .error e
    | .ok b => (mapExcept f as).map (b :: ·)

/-- Non-JSON mode parses each non-`(none)` segment as a network, stopping
at the first failure exactly like mapping the parser over the filtered
segments. -/
theorem parseIpNetworks_nojson (segs : List String) :
    parseIpNetworks false segs =
      (mapExcept pyIpNetwork (segs.filter (fun s => s ≠ "(none)"))).map
        (fun ns => ns.map NetStr.ofNet) := by
  induction segs with
  | nil => simp [parseIpNetworks, mapExcept, Except.map]
  | cons seg rest ih =>
    by_cases h : seg = "(none)"
    · simp [parseIpNetworks, h, ih]
    · simp only [parseIpNetworks, h, if_neg, List.filter_cons, decide_not,
        decide_eq_false_iff_not, not_false_eq_true, if_false, ite_true,
        Bool.not_false, if_true, mapExcept]
      cases hn : pyIpNetwork seg with
      | error e => simp [mapExcept, h, hn, Except.map]
      | ok n =>
        simp [mapExcept, h, hn, ih, Except.map]
        cases mapExcept pyIpNetwork (List.filter (fun s => !decide (s = "(none)")) rest) <;> rfl

/-- Claim C4: in non-raw mode an `allowed ips` value is split on commas
with each segment trimmed; segments equal to `(none)` are skipped; the
remaining segments stay strings in JSON-compatible mode and are parsed as
IP network objects (IPv4 or IPv6) otherwise, so a `(none)`-only value
yields the empty list, the documented two-network example parses to the
expected pair in both modes, and an IPv6 value parses to IPv6 network
objects. -/
theorem claimC4_allowed_ips :
    (∀ v, parse_value "allowed ips" v true =
      .ok (.vnets ((((pySplitOn v ",").map pyTrim).filter
        (fun s => s ≠ "(none)")).map NetStr.str)))
    ∧ (∀ v, parse_value "allowed ips" v false =
      (mapExcept pyIpNetwork (((pySplitOn v ",").map pyTrim).filter
          (fun s => s ≠ "(none)"))).map
        (fun ns => .vnets (ns.map NetStr.ofNet)))
    ∧ parse_value "allowed ips" "(none)" false = .ok (.vnets [])
    ∧ parse_value "allowed ips" "(none)" true = .ok (.vnets [])
    ∧ parse_value "allowed ips" "10.0.0.0/24, 10.0.1.0/24" false =
        .ok (.vnets [.net ⟨167772160, 24⟩, .net ⟨167772416, 24⟩])
    ∧ parse_value "allowed ips" "10.0.0.0/24, 10.0.1.0/24" true =
        .ok (.vnets [.str "10.0.0.0/24", .str "10.0.1.0/24"])
    ∧ parse_value "allowed ips" "fd00::/8, ::/0" false =
        .ok (.vnets [.net6 ⟨0xfd000000000000000000000000000000, 8⟩,
                     .net6 ⟨0, 0⟩])
    ∧ parse_value "allowed ips" "::ffff:10.0.0.1/128" false =
        .ok (.vnets [.net6 ⟨0xffff0a000001, 128⟩]) := by
  refine ⟨fun v => ?_, fun v => ?_, rfl, rfl, rfl, rfl, rfl, rfl⟩
  · simp [parse_value, parseIpNetworks_json, Except.map]
  · simp only [parse_value, if_pos rfl, parseIpNetworks_nojson]
    cases (mapExcept pyIpNetwork (((pySplitOn v ",").map pyTrim).filter
        (fun s => s ≠ "(none)"))) <;> simp [Except.map]

/-- Claim C5: a `transfer` value splitting into exactly two comma-separated
segments parses to the two-field record whose `received` and `sent` entries
are the segments with the literal words `received` / `sent` removed and
surrounding whitespace stripped, the byte-count strings kept verbatim. -/
theorem claimC5_transfer (v s1 s2 : String) (json : Bool)
    (hsplit : pySplitOn v "," = [s1, s2]) :
    parse_value "transfer" v json =
      .ok (.vdict [("received", pyTrim (pyReplace s1 "received" "")),
                   ("sent", pyTrim (pyReplace s2 "sent" ""))]) := by
  simp [parse_value, hsplit]

/-- Witness for claim C5: the spec's example value. -/
theorem claimC5_transfer_witness :
    pySplitOn "1.04 MiB received, 892 B sent" "," =
      ["1.04 MiB received", " 892 B sent"] ∧
    parse_value "transfer" "1.04 MiB received, 892 B sent" false =
      .ok (.vdict [("received", "1.04 MiB"), ("sent", "892 B")]) :=
  ⟨rfl, claimC5_transfer "1.04 MiB received, 892 B sent"
    "1.04 MiB received" " 892 B sent" false rfl⟩

/-- Claim C10: a well-formed `peer` line reached before any `interface`
line makes `parse_interfaces` fail with the lookup error (`KeyError`) —
the anonymous initial record has no `peers` entry — and ordinary key/value
lines before the first `interface` line land in that anonymous record,
which is discarded: dropping them does not change the parse result. -/
theorem claimC10_pre_interface (raw json : Bool) :
    (∀ (blanks : List String) (l : String) (rest : List String) (v : String),
      (∀ b ∈ blanks, pyTrim b = "") → pyTrim l ≠ "" →
      splitKV (pyTrim l) = .ok ("peer", v) →
      parseInterfacesLines raw json (blanks ++ l :: rest) = .error .keyError)
    ∧ (∀ (pre blanks : List String) (l : String) (rest : List String) (v : String),
      (∀ x ∈ pre, preDiscardOk raw json x = true) →
      (∀ b ∈ blanks, pyTrim b = "") → pyTrim l ≠ "" →
      splitKV (pyTrim l) = .ok ("interface", v) →
      parseInterfacesLines raw json (pre ++ (blanks ++ l :: rest)) =
        parseInterfacesLines raw json (blanks ++ l :: rest)) := by
  constructor
  · intro blanks l rest v hb hbl hsp
    unfold parseInterfacesLines
    rw [runM_append raw json initM blanks (l :: rest),
        runM_blanks raw json blanks hb initM]
    dsimp only
    have hstep : stepM raw json initM l = .error .keyError := by
      simp only [stepM]
      rw [if_neg hbl, hsp]
      dsimp only
      rw [parsedVal_generic raw json "peer" v (by decide) (by decide) (by decide)]
      dsimp only
      rw [if_neg (show ("peer" : String) ≠ "interface" by decide), if_pos rfl]
      rfl
    rw [runM, hstep]
    rfl
  · intro pre blanks l rest v hpre hb hbl hsp
    unfold parseInterfacesLines
    rw [runM_append raw json initM pre (blanks ++ l :: rest)]
    obtain ⟨p', hp'⟩ := runM_pre raw json pre hpre [] []
    have hp'' : runM raw json initM pre = .ok ⟨[], p', none, none⟩ := hp'
    rw [hp'']
    dsimp only
    rw [runM_append raw json ⟨[], p', none, none⟩ blanks (l :: rest),
        runM_append raw json initM blanks (l :: rest),
        runM_blanks raw json blanks hb ⟨[], p', none, none⟩,
        runM_blanks raw json blanks hb initM]
    dsimp only
    rw [runM, runM]
    have hstepL : stepM raw json ⟨[], p', none, none⟩ l =
        .ok ⟨dset [] (if raw then PVal.vstr v else
            if v = "(hidden)" then PVal.vnone else PVal.vstr v)
          [("peers", .peers [])], p',
          some (if raw then PVal.vstr v else
            if v = "(hidden)" then PVal.vnone else PVal.vstr v), none⟩ := by
      simp only [stepM]
      rw [if_neg hbl, hsp]
      dsimp only
      rw [parsedVal_generic raw json "interface" v (by decide) (by decide) (by decide)]
      dsimp only
      rw [if_pos rfl]
    have hstepR : stepM raw json initM l =
        .ok ⟨dset [] (if raw then PVal.vstr v else
            if v = "(hidden)" then PVal.vnone else PVal.vstr v)
          [("peers", .peers [])], [],
          some (if raw then PVal.vstr v else
            if v = "(hidden)" then PVal.vnone else PVal.vstr v), none⟩ := by
      simp only [stepM]
      rw [if_neg hbl, hsp]
      dsimp only
      rw [parsedVal_generic raw json "interface" v (by decide) (by decide) (by decide)]
      dsimp only
      rw [if_pos rfl]
      rfl
    rw [hstepL, hstepR]
    dsimp only
    exact runM_pre_irrelevant raw json rest _ _ none p' []

/-- Witness for claim C10: a lone `peer` line fails with the lookup error,
and a discarded pre-`interface` field line does not affect the result. -/
theorem claimC10_witness :
    (∀ b ∈ ([] : List String), pyTrim b = "") ∧
    pyTrim "peer: AAA" ≠ "" ∧
    splitKV (pyTrim "peer: AAA") = .ok ("peer", "AAA") ∧
    parseInterfacesLines false false ([] ++ "peer: AAA" :: []) =
      .error .keyError ∧
    (∀ x ∈ ["foo: bar"], preDiscardOk false false x = true) ∧
    parseInterfacesLines false false
        (["foo: bar"] ++ ([] ++ "interface: wg0" :: [])) =
      parseInterfacesLines false false ([] ++ "interface: wg0" :: []) := by
  refine ⟨by decide, by decide, rfl, ?_, by decide, ?_⟩
  · exact (claimC10_pre_interface false false).1 [] "peer: AAA" [] "AAA"
      (by decide) (by decide) rfl
  · exact (claimC10_pre_interface false false).2 ["foo: bar"] [] "interface: wg0"
      [] "wg0" (by decide) (by decide) (by decide) rfl

/-- Claim C6 is false as stated: an input whose text contains a top-level
line with the key `peers` makes `parse_interface` succeed with a `peers`
entry that is a plain string, not a mapping — the assignment overwrites the
pre-installed peers dict. -/
theorem claimC6_counterexample :
    parse_interface "peers: x" false false = .ok [("peers", .pv (.vstr "x"))] ∧
    ∀ m : List (PVal × PRec), IVal.pv (.vstr "x") ≠ IVal.peers m :=
  ⟨rfl, fun _ h => nomatch h⟩

/-- Claim C6, amended: for inputs none of whose lines carries the key
`peers` (the counterexample's overwrite), every interface record returned
by either parser has a `peers` entry holding a peers mapping; when
additionally no line carries the key `peer`, that mapping is empty. -/
theorem claimC6_peers_mapping (raw json : Bool) (lines : List String)
    (hno : ∀ l ∈ lines, noKeyB "peers" l = true) :
    (∀ r, parseInterfaceLines raw json lines = .ok r →
      ∃ m, dget r "peers" = some (.peers m)) ∧
    (∀ rs, parseInterfacesLines raw json lines = .ok rs →
      ∀ e ∈ rs, ∃ m, dget e.2 "peers" = some (.peers m)) ∧
    ((∀ l ∈ lines, noKeyB "peer" l = true) →
      (∀ r, parseInterfaceLines raw json lines = .ok r →
        dget r "peers" = some (.peers [])) ∧
      (∀ rs, parseInterfacesLines raw json lines = .ok rs →
        ∀ e ∈ rs, dget e.2 "peers" = some (.peers []))) := by
  have hno' : ∀ l ∈ lines, pyTrim l ≠ "" → ∀ k v,
      splitKV (pyTrim l) = .ok (k, v) → k ≠ "peers" :=
    fun l hm _ => noKeyB_spec _ _ (hno l hm)
  refine ⟨?_, ?_, fun hnp => ⟨?_, ?_⟩⟩
  · intro r hr
    unfold parseInterfaceLines at hr
    cases hrun : runI raw json initI lines with
    | error e => rw [hrun] at hr; cases hr
    | ok st' =>
      rw [hrun] at hr
      injection hr with hr
      subst hr
      have ha := runI_attached raw json lines hno' initI st' hrun rfl
      exact ⟨st'.peers, by simp [finishI, ha, dget_dset_self]⟩
  · intro rs hrs
    unfold parseInterfacesLines at hrs
    cases hrun : runM raw json initM lines with
    | error e => rw [hrun] at hrs; cases hrs
    | ok st' =>
      rw [hrun] at hrs
      injection hrs with hrs
      subst hrs
      have hinit : MInv initM := by
        refine ⟨?_, ?_⟩ <;> intro x hx <;> simp [initM] at hx
      have hinv := runM_minv raw json lines hno' initM st' hrun hinit
      exact hinv.1
  · intro r hr
    unfold parseInterfaceLines at hr
    cases hrun : runI raw json initI lines with
    | error e => rw [hrun] at hr; cases hr
    | ok st' =>
      rw [hrun] at hr
      injection hr with hr
      subst hr
      have ha := runI_attached raw json lines hno' initI st' hrun rfl
      have hz := runI_no_peer raw json lines
        (fun l hm _ => noKeyB_spec _ _ (hnp l hm)) initI st' hrun rfl
      simp [finishI, ha, hz, dget_dset_self]
  · intro rs hrs
    unfold parseInterfacesLines at hrs
    cases hrun : runM raw json initM lines with
    | error e => rw [hrun] at hrs; cases hrs
    | ok st' =>
      rw [hrun] at hrs
      injection hrs with hrs
      subst hrs
      have hinit : MInvZ initM := by
        refine ⟨?_, ?_, rfl⟩ <;> intro x hx <;> simp [initM] at hx
      have hinv := runM_minvz raw json lines hno hnp initM st' hrun hinit
      exact hinv.1

/-- Witness for the amended claim C6: a one-field interface text, for both
parsers and both conjuncts. -/
theorem claimC6_witness :
    (∀ l ∈ ["private key: abc"], noKeyB "peers" l = true) ∧
    (∀ l ∈ ["private key: abc"], noKeyB "peer" l = true) ∧
    dget [("peers", IVal.peers []), ("private key", IVal.pv (.vstr "abc"))]
      "peers" = some (.peers []) := by
  refine ⟨by decide, by decide, ?_⟩
  exact ((claimC6_peers_mapping false false ["private key: abc"] (by decide)).2.2
    (by decide)).1
    [("peers", .peers []), ("private key", .pv (.vstr "abc"))] rfl

/-- Claim C7: `clear_peers` on the reserved pseudo-name `interfaces` fails
with `ValueError` and issues no external invocation at all, for every
oracle, tool path and recursion budget. -/
theorem claimC7_reserved_name (env : Cmd → String) (wg : Cmd) (fuel : Nat) :
    clear_peers env wg fuel "interfaces" = ([], .error .valueError) := by
  cases fuel <;> rfl

/-- Claim C8: when the status query for a concrete interface parses to a
record whose `peers` entry is the empty mapping, `clear_peers` issues only
that status query — no `set` invocation — and returns successfully. -/
theorem claimC8_no_set_on_zero_peers (env : Cmd → String) (wg : Cmd)
    (fuel : Nat) (interface : String) (r : IRec)
    (hni : interface ≠ "interfaces") (hna : interface ≠ "all")
    (hparse : parse_interface (pyTrim (env (showArgs wg interface))) false false = .ok r)
    (hzero : dget r "peers" = some (.peers [])) :
    clear_peers env wg fuel interface = ([showArgs wg interface], .ok ()) := by
  have hsingle : clearPeersSingle env wg interface = ([showArgs wg interface], .ok ()) := by
    unfold clearPeersSingle pyShow
    rw [if_neg hna, if_neg hni]
    simp [hparse, hzero, Except.map]
  cases fuel with
  | zero => simp [clear_peers, hni, hna, hsingle]
  | succ n => simp [clear_peers, hni, hna, hsingle]

/-- Witness for claim C8: an oracle whose status output is empty, hence a
zero-peer interface record. -/
theorem claimC8_witness :
    ("wg0" : String) ≠ "interfaces" ∧ ("wg0" : String) ≠ "all" ∧
    parse_interface (pyTrim ((fun _ => "") (showArgs [] "wg0"))) false false =
      .ok [("peers", .peers [])] ∧
    dget [("peers", IVal.peers [])] "peers" = some (.peers []) ∧
    clear_peers (fun _ => "") [] 0 "wg0" = ([showArgs [] "wg0"], .ok ()) :=
  ⟨by decide, by decide, rfl, rfl,
    claimC8_no_set_on_zero_peers (fun _ => "") [] 0 "wg0"
      [("peers", .peers [])] (by decide) (by decide) rfl rfl⟩

/-- Claim C9: the argument block `peers_args` emits for one peer starts
with `peer` and the public key, followed by each optional setting only when
present and truthy, in the fixed order `remove`, `preshared-key`,
`endpoint`, `persistent-keepalive`, `allowed-ips`, and is followed by the
blocks of the remaining peers. -/
theorem claimC9_peer_args (peer : PVal) (settings : PRec) (ips : List String)
    (rest : List (PVal × PRec)) (restOut : Cmd)
    (hips : truthy (pyGet settings "allowed-ips") = true →
      iterStrs (pyGet settings "allowed-ips") = .ok ips)
    (hrest : peers_args rest = .ok restOut) :
    peers_args ((peer, settings) :: rest) = .ok
      ([.vstr "peer", peer]
        ++ (if truthy (pyGet settings "remove") then [.vstr "remove"] else [])
        ++ (if truthy (pyGet settings "preshared-key")
              then [.vstr "preshared-key", pyGet settings "preshared-key"] else [])
        ++ (if truthy (pyGet settings "endpoint")
              then [.vstr "endpoint", .vstr (pyStr (pyGet settings "endpoint"))] else [])
        ++ (if truthy (pyGet settings "persistent-keepalive")
              then [.vstr "persistent-keepalive",
                    .vstr (pyStr (pyGet settings "persistent-keepalive"))] else [])
        ++ (if truthy (pyGet settings "allowed-ips")
              then [.vstr "allowed-ips", .vstr (String.intercalate "," ips)] else [])
        ++ restOut) := by
  by_cases hr : truthy (pyGet settings "remove") <;>
  by_cases hp : truthy (pyGet settings "preshared-key") <;>
  by_cases he : truthy (pyGet settings "endpoint") <;>
  by_cases hk : truthy (pyGet settings "persistent-keepalive") <;>
  by_cases hai : truthy (pyGet settings "allowed-ips") <;>
    simp [peers_args, hr, hp, he, hk, hai, hips, hrest, Except.map]

/-- Witness for claim C9: one peer with every optional setting present. -/
theorem claimC9_witness :
    peers_args [(.vstr "PK",
      [("remove", .vbool true), ("preshared-key", .vstr "psk1"),
       ("endpoint", .vstr "1.2.3.4:51820"), ("persistent-keepalive", .vint 25),
       ("allowed-ips", .vnets [.net ⟨167772160, 24⟩])])] = .ok
      [.vstr "peer", .vstr "PK", .vstr "remove", .vstr "preshared-key",
       .vstr "psk1", .vstr "endpoint", .vstr "1.2.3.4:51820",
       .vstr "persistent-keepalive", .vstr "25", .vstr "allowed-ips",
       .vstr "10.0.0.0/24"] := by
  have h := claimC9_peer_args (.vstr "PK")
    [("remove", .vbool true), ("preshared-key", .vstr "psk1"),
     ("endpoint", .vstr "1.2.3.4:51820"), ("persistent-keepalive", .vint 25),
     ("allowed-ips", .vnets [.net ⟨167772160, 24⟩])]
    ["10.0.0.0/24"] [] [] (fun _ => rfl) rfl
  simpa using h

end Wgtools
